import Mathlib

/-!
A verification development for `myshell.c`.

The interpreter of `myshell.c` is embedded as pure functions.

* C strings are lists of characters (the text before the terminating NUL).
* The library routines the shell calls (`strstr`, `strsep`, `strtok`) are modelled after
  their C library behaviour.
* The interpreter process is a state (working directory, descriptor table, number of
  `fork` calls made, trace of the system calls it issued, exit status once it has called
  `exit`).  A forked child is recorded in the `fork` event as the list of operations the
  child performs.
* Everything the code cannot decide by itself (whether a `fork`, an `open`, an `execvp`
  or a `chdir` succeeds, which pid a `fork` returns, the value of `HOME`) is a field of
  `World`.

The global arrays `commands` and `args` have `MAX_ARGUMNETS` entries and the code stores
into them without a bound check.  A store past the end is undefined behaviour: the parsers
then return `none`, the interpreter is marked `undefined` (a child gets the operation
`outOfBounds`), and the model follows the process no further.

Not modelled: the asynchronous `SIGCHLD` handler, a failing `pipe()`, and the prompt /
`getline` part of the main loop.
-/

namespace MyShell

/-- A C string: the characters in front of the terminating NUL. -/
abbrev CStr := List Char

/-! ## C library string routines -/

/-- The call `strstr(hay, needle)`: the suffix of `hay` starting at the first occurrence
of `needle`, or `none` (NULL) when there is no occurrence. -/
def strstr : CStr → CStr → Option CStr
  | [], needle => if needle.isPrefixOf [] then some [] else none
  | c :: cs, needle =>
      if needle.isPrefixOf (c :: cs) then some (c :: cs) else strstr cs needle

/-- The call `strsep(&rest, delim)` for a non-NULL `rest`: the returned token is the text
in front of the first character that belongs to the *set* of characters `delim`; the new
value of `rest` is the text behind that character, or `none` (NULL) when no character of
`delim` occurs. -/
def strsep (delim : CStr) : CStr → CStr × Option CStr
  | [] => ([], none)
  | c :: cs =>
      if delim.contains c then ([], some cs)
      else ((c :: (strsep delim cs).1), (strsep delim cs).2)

/-- The call `strtok(..., delim)` scanning the text `s` (the argument of a first call, or
the text at the saved position for a call `strtok(NULL, delim)`): leading characters of
the set `delim` are skipped; when nothing is left the result is NULL; otherwise the token
runs up to the next character of `delim`.  The second component is the text at the saved
position for the next call. -/
def strtok (s delim : CStr) : Option CStr × CStr :=
  let s1 := s.dropWhile (fun c => delim.contains c)
  if s1.isEmpty then (none, [])
  else (some (s1.takeWhile (fun c => !delim.contains c)),
        (s1.dropWhile (fun c => !delim.contains c)).tail)

/-- The loop `while (*p == ' ') p++`. -/
def skipSpaces : CStr → CStr
  | [] => []
  | c :: cs => if c = ' ' then skipSpaces cs else c :: cs

/-- The loop `while (len > 0 && p[len-1] == ' ') p[--len] = 0`. -/
def trimTrailingSpaces (p : CStr) : CStr :=
  (skipSpaces p.reverse).reverse

/-! ## `parseInput` and `parseCommandArgs` -/

/-- The constant `MAX_ARGUMNETS`: the number of entries of each of the global arrays
`commands` and `args`. -/
def MAX_ARGUMNETS : Nat := 50

/-- How one of the two loops that fill a global array ends. -/
inductive Fill where
  /-- The loop is over and every entry went into the array. -/
  | stored (entries : List CStr)
  /-- An entry was stored at index `MAX_ARGUMNETS`, past the end of the array. -/
  | overflow
  /-- The fuel ran out before `strsep` returned NULL. -/
  | unfinished
  deriving DecidableEq, Repr

/-- The `while` loop of `parseInput`; `rest` is `rest_ptr`, `commands` the entries stored
so far, so that `commands.length` is `command_count`.  The store
`commands[command_count] = token_ptr` stays inside the array only while `command_count`
is below `MAX_ARGUMNETS`. -/
def parseInputLoop (delimiter : CStr) : Nat → Option CStr → List CStr → Fill
  | _, none, commands => Fill.stored commands
  | 0, some _, _ => Fill.unfinished
  | fuel + 1, some rest, commands =>
      let token_ptr := (strsep delimiter rest).1
      let rest_ptr := (strsep delimiter rest).2
      if token_ptr.length > 0 then
        let token_ptr := skipSpaces token_ptr
        if token_ptr.length > 0 then
          if commands.length < MAX_ARGUMNETS then
            parseInputLoop delimiter fuel rest_ptr (commands ++ [token_ptr])
          else Fill.overflow
        else parseInputLoop delimiter fuel rest_ptr commands
      else parseInputLoop delimiter fuel rest_ptr commands

/-- The function `parseInput(input_str, delimiter)`: the contents of `commands[0 ..
command_count - 1]` afterwards, or `none` when an entry or the closing
`commands[command_count] = NULL` is stored past the end of the array.  Every iteration
consumes at least one character or ends the loop, so `input_str.length + 1` iterations
are enough (see `parseInputLoop_enough_fuel`). -/
def parseInput (input_str delimiter : CStr) : Option (List CStr) :=
  match parseInputLoop delimiter (input_str.length + 1) (some input_str) [] with
  | Fill.stored commands => if commands.length < MAX_ARGUMNETS then some commands else none
  | Fill.overflow => none
  | Fill.unfinished => none

/-- The `while` loop of `parseCommandArgs`; `args.length` is `arg_count`.  The store
`args[arg_count] = token_ptr` stays inside the array only while `arg_count` is below
`MAX_ARGUMNETS`. -/
def parseCommandArgsLoop : Nat → Option CStr → List CStr → Fill
  | _, none, args => Fill.stored args
  | 0, some _, _ => Fill.unfinished
  | fuel + 1, some rest, args =>
      let token_ptr := (strsep [' '] rest).1
      let rest_ptr := (strsep [' '] rest).2
      if token_ptr.length > 0 then
        if args.length < MAX_ARGUMNETS then
          parseCommandArgsLoop fuel rest_ptr (args ++ [token_ptr])
        else Fill.overflow
      else parseCommandArgsLoop fuel rest_ptr args

/-- The function `parseCommandArgs(command_str)`: the contents of `args` in front of the
NULL terminator, or `none` when an entry or the closing `args[arg_count] = NULL` is stored
past the end of the array.  `command_str` may be NULL (`none`), in which case `strsep`
returns NULL at once. -/
def parseCommandArgs (command_str : Option CStr) : Option (List CStr) :=
  match command_str with
  | none => some []
  | some str =>
      match parseCommandArgsLoop (str.length + 1) (some str) [] with
      | Fill.stored args => if args.length < MAX_ARGUMNETS then some args else none
      | Fill.overflow => none
      | Fill.unfinished => none

/-! ## The operating system as seen by the interpreter -/

/-- What the code cannot decide by itself. -/
structure World where
  /-- The value of `getenv("HOME")`, `none` for NULL. -/
  home : Option CStr
  /-- The directory that `path` names for a process whose working directory is the first
  argument; `none` when `chdir(path)` fails. -/
  resolve : CStr → CStr → Option CStr
  /-- Whether the `k`-th call of `fork` (counted from 0) succeeds. -/
  forkOk : Nat → Bool
  /-- The pid that the `k`-th call of `fork` returns in the parent. -/
  pidOf : Nat → Nat
  /-- Whether `open(path, O_WRONLY | O_CREAT | O_TRUNC, 0644)` succeeds for a non-empty
  `path` in a process whose working directory is the first argument. -/
  openOk : CStr → CStr → Bool
  /-- Whether `execvp(args[0], args)` finds and starts the program. -/
  execOk : List CStr → Bool

/-- One operation performed inside a forked child, in program order. -/
inductive ChildOp where
  /-- The call `open(path, O_WRONLY | O_CREAT | O_TRUNC, mode)` with the descriptor it
  returned (`none` for -1). -/
  | openTrunc (path : CStr) (mode : Nat) (fd : Option Nat)
  | dup2 (oldfd newfd : Nat)
  | close (fd : Nat)
  | chdir (path : Option CStr) (ok : Bool)
  | perror (msg : String)
  | printf (msg : String)
  | eprintf (msg : String)
  /-- The call `execvp(args[0], args)`; `ok = false` means that it returned. -/
  | execvp (args : List CStr) (ok : Bool)
  | exit (status : Nat)
  /-- A store past the end of the array `args`; what the child does from here on is
  undefined. -/
  | outOfBounds
  deriving DecidableEq, Repr

/-- One operation performed by the interpreter process itself. -/
inductive Event where
  /-- A successful `fork`: the pid returned to the parent and what the child does. -/
  | fork (pid : Nat) (child : List ChildOp)
  /-- A call of `fork` that returned -1. -/
  | forkFailed
  /-- A blocking `waitpid(pid, &status, 0)`. -/
  | waitpid (pid : Nat)
  | pipe (readEnd writeEnd : Nat)
  | close (fd : Nat)
  | chdir (path : Option CStr) (ok : Bool)
  | perror (msg : String)
  | printf (msg : String)
  | exit (status : Nat)
  deriving DecidableEq, Repr

/-- The interpreter process. -/
structure State where
  /-- Current working directory (ShellState). -/
  cwd : CStr
  /-- Open file descriptors. -/
  fds : List Nat
  /-- Number of calls of `fork` made so far. -/
  forks : Nat
  /-- The operations issued so far, oldest first. -/
  trace : List Event
  /-- The exit status once the interpreter has terminated. -/
  exited : Option Nat
  /-- Set once the interpreter has stored past the end of `commands` or `args`; what it
  does from then on is undefined and the model does not follow it. -/
  undefined : Bool
  deriving DecidableEq, Repr

/-- Append one event to the trace. -/
def State.emit (s : State) (e : Event) : State :=
  { s with trace := s.trace ++ [e] }

/-- The interpreter has stored past the end of one of its global arrays. -/
def State.outOfBounds (s : State) : State :=
  { s with undefined := true }

/-- The lowest descriptor number that is not open: what `open` and `pipe` hand out. -/
def lowestFree (fds : List Nat) : Nat :=
  ((List.range (fds.length + 1)).find? (fun k => !fds.contains k)).getD fds.length

/-- The call `pipe(pipes)`: two new descriptors, read end first. -/
def sysPipe (s : State) : State × Nat × Nat :=
  let r := lowestFree s.fds
  let w := lowestFree (r :: s.fds)
  (({ s with fds := w :: r :: s.fds }).emit (Event.pipe r w), r, w)

/-- The call `close(fd)`. -/
def sysClose (fd : Nat) (s : State) : State :=
  ({ s with fds := s.fds.erase fd }).emit (Event.close fd)

/-- The call `chdir(path)` in the interpreter; `path = none` is a NULL pointer, on which
`chdir` fails.  The flag tells whether the call returned 0. -/
def sysChdir (w : World) (path : Option CStr) (s : State) : State × Bool :=
  match path.bind (w.resolve s.cwd) with
  | some dir => (({ s with cwd := dir }).emit (Event.chdir path true), true)
  | none => (s.emit (Event.chdir path false), false)

/-- The call `waitpid(pid, &status, 0)`. -/
def sysWaitpid (pid : Nat) (s : State) : State :=
  s.emit (Event.waitpid pid)

/-- A successful `fork()` seen from the parent: the child, which performs `child`, is
recorded; the pid is returned. -/
def sysFork (w : World) (child : List ChildOp) (s : State) : State × Nat :=
  (({ s with forks := s.forks + 1 }).emit (Event.fork (w.pidOf s.forks) child), w.pidOf s.forks)

/-- The branch `pid < 0`: `perror("fork failed"); exit(1);`. -/
def forkFailure (s : State) : State :=
  { s with forks := s.forks + 1,
           trace := s.trace ++ [Event.forkFailed, Event.perror "fork failed", Event.exit 1],
           exited := some 1 }

/-- The descriptor returned in a child by `open(path, O_WRONLY | O_CREAT | O_TRUNC,
0644)`; the child has inherited the descriptor table `fds` and the directory `cwd`.  An
empty path never opens (ENOENT). -/
def childOpen (w : World) (cwd : CStr) (fds : List Nat) (path : CStr) : Option Nat :=
  if !path.isEmpty && w.openOk cwd path then some (lowestFree fds) else none

/-- Whether `execvp(args[0], args)` replaces the image; with `args[0] == NULL` it
fails. -/
def execSucceeds (w : World) (args : List CStr) : Bool :=
  !args.isEmpty && w.execOk args

/-! ## `executeCommand` -/

/-- The text of the program name that selects the built-in. -/
def cdName : CStr := ['c', 'd']

/-- The home alias accepted by the built-in. -/
def tilde : CStr := ['~']

/-- What the redirection block at the head of `executeCommand` leaves behind. -/
structure Redirection where
  /-- The global `redirect_flag`. -/
  redirect_flag : Bool
  /-- The global `output_file`, `none` for NULL. -/
  output_file : Option CStr
  /-- The local `command_str` handed to `parseCommandArgs`, `none` for NULL. -/
  command_str : Option CStr
  deriving DecidableEq, Repr

/-- The head of `executeCommand`: reset of the globals, `strstr(command_str, ">")`, the two
`strtok` calls and the trimming of the file name. -/
def splitRedirection (command_str : CStr) : Redirection :=
  match strstr command_str ['>'] with
  | some _ =>
      let command_part := (strtok command_str ['>']).1
      let file_part := (strtok (strtok command_str ['>']).2 []).1
      { redirect_flag := true,
        output_file := file_part.map (fun f => trimTrailingSpaces (skipSpaces f)),
        command_str := command_part }
  | none => { redirect_flag := false, output_file := none, command_str := some command_str }

/-- The tail shared by the children: `execvp(args[0], args)` and, when it returns, the
messages in `failure` followed by `exit(1)`. -/
def childExec (w : World) (args : List CStr) (failure : List ChildOp) : List ChildOp :=
  if execSucceeds w args then [ChildOp.execvp args true]
  else ChildOp.execvp args false :: (failure ++ [ChildOp.exit 1])

/-- The child branch (`pid_process == 0`) of `executeCommand`; the child has inherited
the working directory `cwd` and the descriptor table `fds` of the interpreter. -/
def executeCommandChild (w : World) (cwd : CStr) (fds : List Nat) (r : Redirection)
    (args : List CStr) : List ChildOp :=
  let run := childExec w args [ChildOp.printf "Shell: Incorrect command", ChildOp.printf "\n"]
  match r.redirect_flag, r.output_file with
  | true, some output_file =>
      match childOpen w cwd fds output_file with
      | some fd =>
          [ChildOp.openTrunc output_file 0o644 (some fd), ChildOp.dup2 fd 1, ChildOp.close fd]
            ++ run
      | none =>
          [ChildOp.openTrunc output_file 0o644 none, ChildOp.perror "open failed",
           ChildOp.exit 1]
  | _, _ => run

/-- The built-in `cd` as run by the interpreter itself inside `executeCommand`; `rest` is
`args[1 ..]`. -/
def builtinCd (w : World) (rest : List CStr) (s : State) : State :=
  match rest with
  | [] => (sysChdir w w.home s).1
  | arg1 :: _ =>
      if arg1 = tilde then (sysChdir w w.home s).1
      else if (sysChdir w (some arg1) s).2 then (sysChdir w (some arg1) s).1
      else (sysChdir w (some arg1) s).1.emit (Event.perror "cd")

/-- The function `executeCommand(command_str)`. -/
def executeCommand (w : World) (command_str : CStr) (s : State) : State :=
  let r := splitRedirection command_str
  match parseCommandArgs r.command_str with
  | none => s.outOfBounds
  | some [] => s
  | some (arg0 :: rest) =>
      if arg0 = cdName then builtinCd w rest s
      else if w.forkOk s.forks then
        let forked := sysFork w (executeCommandChild w s.cwd s.fds r (arg0 :: rest)) s
        sysWaitpid forked.2 forked.1
      else forkFailure s

/-! ## `executeParallelCommands` -/

/-- The child branch (`pid == 0`) of `executeParallelCommands` for `commands[i]`; the
child has inherited the working directory `cwd`. -/
def parallelChild (w : World) (cwd : CStr) (command : CStr) : List ChildOp :=
  match parseCommandArgs (some command) with
  | none => [ChildOp.outOfBounds]
  | some [] => childExec w [] [ChildOp.eprintf "Shell: Incorrect command"]
  | some (arg0 :: rest) =>
      if arg0 = cdName then
        (match rest with
          | [] => [ChildOp.chdir w.home (w.home.bind (w.resolve cwd)).isSome]
          | arg1 :: _ =>
              if arg1 = tilde then [ChildOp.chdir w.home (w.home.bind (w.resolve cwd)).isSome]
              else if (w.resolve cwd arg1).isSome then [ChildOp.chdir (some arg1) true]
              else [ChildOp.chdir (some arg1) false, ChildOp.perror "cd"])
          ++ [ChildOp.exit 0]
      else childExec w (arg0 :: rest) [ChildOp.eprintf "Shell: Incorrect command"]

/-- The second `for` loop of `executeParallelCommands`: a blocking wait for every entry
of the array `pids`, in index order. -/
def parallelWaitLoop : List Nat → State → State
  | [], s => s
  | pid :: later, s => parallelWaitLoop later (sysWaitpid pid s)

/-- The first `for` loop of `executeParallelCommands` over the commands not yet forked;
`pids` is the array filled so far.  When the loop is through, control passes to the second
loop; a failed `fork` ends the process on the spot. -/
def parallelForkLoop (w : World) : List CStr → State → List Nat → State
  | [], s, pids => parallelWaitLoop pids s
  | command :: later, s, pids =>
      if w.forkOk s.forks then
        let forked := sysFork w (parallelChild w s.cwd command) s
        parallelForkLoop w later forked.1 (pids ++ [forked.2])
      else forkFailure s

/-- The function `executeParallelCommands()` run on the global `commands`. -/
def executeParallelCommands (w : World) (commands : List CStr) (s : State) : State :=
  parallelForkLoop w commands s []

/-! ## `executeSequentialCommands` and `executeCommandRedirection` -/

/-- The function `executeSequentialCommands()` run on the global `commands` by a running
interpreter; an `exit(1)` inside `executeCommand` ends the loop together with the
process, and after a store past the end of `args` the loop is followed no further. -/
def executeSequentialCommands (w : World) : List CStr → State → State
  | [], s => s
  | command :: later, s =>
      if (executeCommand w command s).exited.isSome || (executeCommand w command s).undefined
      then executeCommand w command s
      else executeSequentialCommands w later (executeCommand w command s)

/-- The function `executeCommandRedirection(input_str)`. -/
def executeCommandRedirection (w : World) (input_str : CStr) (s : State) : State :=
  executeCommand w input_str s

/-! ## `executePipedCommands` -/

/-- The child branch (`pid_process == 0`) of `executePipedCommands` for stage `i` of
`command_count` stages. -/
def pipedChild (w : World) (command_count i input_fd readEnd writeEnd : Nat)
    (command : CStr) : List ChildOp :=
  (if i > 0 then [ChildOp.dup2 input_fd 0, ChildOp.close input_fd] else [])
    ++ (if i < command_count - 1 then [ChildOp.dup2 writeEnd 1, ChildOp.close writeEnd]
        else [])
    ++ [ChildOp.close readEnd]
    ++ (match parseCommandArgs (some command) with
        | none => [ChildOp.outOfBounds]
        | some args => childExec w args [ChildOp.printf "Shell: Incorrect command\n"])

/-- The `for` loop of `executePipedCommands` from index `i` on, with the current value of
`input_fd`.  When the loop is through, the statement behind it, `close(input_fd)`, is
run; a failed `fork` ends the process on the spot. -/
def pipedLoop (w : World) (command_count : Nat) : Nat → List CStr → Nat → State → State
  | _, [], input_fd, s => sysClose input_fd s
  | i, command :: later, input_fd, s =>
      let piped := sysPipe s
      let readEnd := piped.2.1
      let writeEnd := piped.2.2
      if w.forkOk piped.1.forks then
        let forked :=
          sysFork w (pipedChild w command_count i input_fd readEnd writeEnd command) piped.1
        pipedLoop w command_count (i + 1) later readEnd
          (sysWaitpid forked.2 (sysClose writeEnd forked.1))
      else forkFailure piped.1

/-- The function `executePipedCommands()` run on the global `commands`: `input_fd` starts
as 0. -/
def executePipedCommands (w : World) (commands : List CStr) (s : State) : State :=
  pipedLoop w commands.length 0 commands 0 s

/-! ## The body of the main loop -/

/-- The line that ends the interpreter. -/
def exitToken : CStr := ['e', 'x', 'i', 't']

/-- One iteration of the `while (1)` loop of `main` from the point where `command` holds
the line without its newline: the empty-line test, the `exit` test and the choice among
the five branches. -/
def mainIteration (w : World) (command : CStr) (s : State) : State :=
  if command.length = 0 then s
  else if command = exitToken then
    { s with trace := s.trace ++ [Event.printf "Exiting shell...\n"], exited := some 0 }
  else if (strstr command ['&', '&']).isSome then
    match parseInput command ['&', '&'] with
    | some commands => executeParallelCommands w commands s
    | none => s.outOfBounds
  else if (strstr command ['#', '#']).isSome then
    match parseInput command ['#', '#'] with
    | some commands => executeSequentialCommands w commands s
    | none => s.outOfBounds
  else if (strstr command ['>']).isSome then
    executeCommandRedirection w command s
  else if (strstr command ['|']).isSome then
    if command.getLast? = some '|' then s.emit (Event.printf "Shell: Incorrect command\n")
    else
      match parseInput command ['|'] with
      | some commands => executePipedCommands w commands s
      | none => s.outOfBounds
  else executeCommand w command s

/-! ## A concrete environment for evaluating the definitions -/

/-- An environment in which every `fork`, `open` and `execvp` succeeds, the `k`-th child
gets pid `100 + k`, `HOME` is `/home/u`, and the directories that exist are `/home/u`
and `/tmp`. -/
def demoWorld : World where
  home := some "/home/u".toList
  resolve := fun _ path =>
    if path = "/home/u".toList ∨ path = "/tmp".toList then some path else none
  forkOk := fun _ => true
  pidOf := fun k => 100 + k
  openOk := fun _ _ => true
  execOk := fun _ => true

/-- The interpreter right after start: in `/tmp`, with the three standard descriptors
open and nothing done yet. -/
def demoState : State where
  cwd := "/tmp".toList
  fds := [0, 1, 2]
  forks := 0
  trace := []
  exited := none
  undefined := false

/-- The environment `demoWorld` with `HOME` set to `/nonexistent`, a directory that does
not exist. -/
def lostHomeWorld : World :=
  { demoWorld with home := some "/nonexistent".toList }

/-! ## Auxiliary view of the `strsep` loops -/

/-- The tokens that successive calls `strsep(&rest, delim)` return for a text, up to and
including the call that sets `rest` to NULL (see `strsepTokens_unfold`). -/
def strsepTokens (delim : CStr) : CStr → List CStr
  | [] => [[]]
  | c :: cs =>
      if delim.contains c then [] :: strsepTokens delim cs
      else ((c :: (strsepTokens delim cs).headD []) :: (strsepTokens delim cs).tail)

/-- What the loop of `parseInput` makes of the tokens: each loses its leading spaces, and
those of which nothing is left are dropped. -/
def keptTokens (tokens : List CStr) : List CStr :=
  (tokens.map skipSpaces).filter (fun piece => !piece.isEmpty)

/-! ## Execution modes and the specification side of mode selection and tokenizing -/

/-- The five execution modes among which one line chooses. -/
inductive ExecutionMode where
  | Parallel
  | Sequential
  | Redirected
  | Piped
  | Single
  deriving DecidableEq, Repr

/-- Specification side of mode selection: the first marker, in the order `&&`, `##`,
`>`, `|`, that occurs in the line as a piece of text decides; a line without marker is a
single command. -/
def modeByPriority (line : CStr) : ExecutionMode :=
  if ['&', '&'] <:+: line then ExecutionMode.Parallel
  else if ['#', '#'] <:+: line then ExecutionMode.Sequential
  else if ['>'] <:+: line then ExecutionMode.Redirected
  else if ['|'] <:+: line then ExecutionMode.Piped
  else ExecutionMode.Single

/-- What the interpreter does with a line in each mode: the bodies of the five branches
of the `if` chain of `main`, taken from the source.  The pipe branch starts with the check
for a trailing pipe marker. -/
def runMode (w : World) (mode : ExecutionMode) (line : CStr) (s : State) : State :=
  match mode with
  | ExecutionMode.Parallel =>
      match parseInput line ['&', '&'] with
      | some commands => executeParallelCommands w commands s
      | none => s.outOfBounds
  | ExecutionMode.Sequential =>
      match parseInput line ['#', '#'] with
      | some commands => executeSequentialCommands w commands s
      | none => s.outOfBounds
  | ExecutionMode.Redirected => executeCommandRedirection w line s
  | ExecutionMode.Piped =>
      if line.getLast? = some '|' then s.emit (Event.printf "Shell: Incorrect command\n")
      else
        match parseInput line ['|'] with
        | some commands => executePipedCommands w commands s
        | none => s.outOfBounds
  | ExecutionMode.Single => executeCommand w line s

/-- Specification side of the tokenizer, first step: the pieces of the line that lie
between successive occurrences of the marker taken as a whole text, from left to right.
`skip` is the number of characters of the occurrence just found that still have to be
stepped over, `piece` the current piece in reverse. -/
def piecesBetween (marker : CStr) : Nat → CStr → CStr → List CStr
  | _, piece, [] => [piece.reverse]
  | skip + 1, piece, _ :: cs => piecesBetween marker skip piece cs
  | 0, piece, c :: cs =>
      if marker.isPrefixOf (c :: cs) then
        piece.reverse :: piecesBetween marker (marker.length - 1) [] cs
      else piecesBetween marker 0 (c :: piece) cs

/-- Specification side of the tokenizer: the pieces between successive occurrences of the
marker, each without its leading spaces, the empty ones discarded, in order. -/
def splitOnMarker (marker line : CStr) : List CStr :=
  ((piecesBetween marker 0 [] line).map skipSpaces).filter (fun piece => !piece.isEmpty)


/-! ## Facts about the string routines -/

/-- The call `strstr` finds something exactly when the needle occurs in the text. -/
theorem strstr_isSome_iff (hay needle : CStr) :
    (strstr hay needle).isSome = true ↔ needle <:+: hay := by
  induction hay with
  | nil =>
      cases needle with
      | nil => simp [strstr]
      | cons a as => simp [strstr]
  | cons c cs ih =>
      rw [strstr]
      by_cases h : needle.isPrefixOf (c :: cs) = true
      · rw [if_pos h]
        have hp : needle <+: c :: cs := List.isPrefixOf_iff_prefix.mp h
        simpa using hp.isInfix
      · rw [if_neg h, ih, List.infix_cons_iff]
        have hp : ¬ needle <+: c :: cs := fun hp => h (List.isPrefixOf_iff_prefix.mpr hp)
        tauto

/-- A character of the line occurs in it as a one-character text. -/
theorem singleton_infix_of_mem {c : Char} {line : CStr} (h : c ∈ line) : [c] <:+: line := by
  obtain ⟨front, back, rfl⟩ := List.append_of_mem h
  exact ⟨front, back, by simp⟩

/-- A one-character text occurs in the line only when the character is in the line. -/
theorem mem_of_singleton_infix {c : Char} {line : CStr} (h : [c] <:+: line) : c ∈ line := by
  obtain ⟨front, back, rfl⟩ := h
  simp

/-- Each `strsep` call that does not return NULL in `rest` leaves a shorter text. -/
theorem strsep_rest_length (delim : CStr) :
    ∀ (str rest : CStr), (strsep delim str).2 = some rest → rest.length < str.length
  | [], rest, h => by simp [strsep] at h
  | c :: cs, rest, h => by
      rw [strsep] at h
      by_cases hc : delim.contains c = true
      · rw [if_pos hc] at h
        simp only [Option.some.injEq] at h
        subst h
        simp
      · rw [if_neg hc] at h
        have := strsep_rest_length delim cs rest h
        simp only [List.length_cons]
        omega

/-- The loop of `parseInput` ends within any fuel that exceeds the length of the text
still to be split. -/
theorem parseInputLoop_enough_fuel (delimiter : CStr) :
    ∀ (fuel : Nat) (rest : Option CStr) (commands : List CStr),
      (∀ str, rest = some str → str.length < fuel) →
      parseInputLoop delimiter fuel rest commands ≠ Fill.unfinished
  | _, none, commands, _ => by simp [parseInputLoop]
  | 0, some str, _, h => by simpa using h str rfl
  | fuel + 1, some str, commands, h => by
      have hlt : str.length < fuel + 1 := h str rfl
      have hrest : ∀ r, (strsep delimiter str).2 = some r → r.length < fuel := by
        intro r hr
        have := strsep_rest_length delimiter str r hr
        omega
      simp only [parseInputLoop]
      split_ifs
      · exact parseInputLoop_enough_fuel delimiter fuel _ _ hrest
      · simp
      · exact parseInputLoop_enough_fuel delimiter fuel _ _ hrest
      · exact parseInputLoop_enough_fuel delimiter fuel _ _ hrest

/-- The function `parseInput` returns: its loop does not run out of fuel, so that `none`
stands for a store past the end of `commands` and for nothing else. -/
theorem parseInput_returns (input_str delimiter : CStr) :
    parseInputLoop delimiter (input_str.length + 1) (some input_str) [] ≠ Fill.unfinished :=
  parseInputLoop_enough_fuel delimiter (input_str.length + 1) (some input_str) []
    (by intro t ht; cases ht; omega)

/-- The loop of `parseCommandArgs` ends within any fuel that exceeds the length of the
text still to be split. -/
theorem parseCommandArgsLoop_enough_fuel :
    ∀ (fuel : Nat) (rest : Option CStr) (args : List CStr),
      (∀ str, rest = some str → str.length < fuel) →
      parseCommandArgsLoop fuel rest args ≠ Fill.unfinished
  | _, none, args, _ => by simp [parseCommandArgsLoop]
  | 0, some str, _, h => by simpa using h str rfl
  | fuel + 1, some str, args, h => by
      have hlt : str.length < fuel + 1 := h str rfl
      have hrest : ∀ r, (strsep [' '] str).2 = some r → r.length < fuel := by
        intro r hr
        have := strsep_rest_length [' '] str r hr
        omega
      simp only [parseCommandArgsLoop]
      split_ifs
      · exact parseCommandArgsLoop_enough_fuel fuel _ _ hrest
      · simp
      · exact parseCommandArgsLoop_enough_fuel fuel _ _ hrest

/-- The function `parseCommandArgs` returns: its loop does not run out of fuel, so that
`none` stands for a store past the end of `args` and for nothing else. -/
theorem parseCommandArgs_returns (str : CStr) :
    parseCommandArgsLoop (str.length + 1) (some str) [] ≠ Fill.unfinished :=
  parseCommandArgsLoop_enough_fuel (str.length + 1) (some str) []
    (by intro t ht; cases ht; omega)

/-- An argument list that `parseCommandArgs` returns fits the array `args` together with
its NULL terminator. -/
theorem parseCommandArgs_bound (command_str : Option CStr) (args : List CStr)
    (h : parseCommandArgs command_str = some args) : args.length < MAX_ARGUMNETS := by
  cases command_str with
  | none =>
      simp only [parseCommandArgs, Option.some.injEq] at h
      subst h
      decide
  | some str =>
      simp only [parseCommandArgs] at h
      cases hloop : parseCommandArgsLoop (str.length + 1) (some str) [] with
      | stored entries =>
          rw [hloop] at h
          by_cases hfit : entries.length < MAX_ARGUMNETS
          · simp only [if_pos hfit, Option.some.injEq] at h
            subst h
            exact hfit
          · simp [if_neg hfit] at h
      | overflow => rw [hloop] at h; simp at h
      | unfinished => rw [hloop] at h; simp at h

/-! ## The tokenizer -/

/-- The list `strsepTokens` is what iterating `strsep` produces: the first token, then
the tokens of the text that `strsep` leaves in `rest`. -/
theorem strsepTokens_unfold (delim : CStr) :
    ∀ (str : CStr),
      strsepTokens delim str =
        (strsep delim str).1 ::
          (match (strsep delim str).2 with
            | none => []
            | some rest => strsepTokens delim rest)
  | [] => rfl
  | c :: cs => by
      rw [strsepTokens, strsep]
      by_cases hc : delim.contains c = true
      · rw [if_pos hc, if_pos hc]
      · rw [if_neg hc, if_neg hc, strsepTokens_unfold delim cs]
        rfl

/-- What the loop of `parseInput` stores: every token without its leading spaces, unless
nothing is left of it, as long as the array has room. -/
theorem parseInputLoop_eq (delimiter : CStr) :
    ∀ (fuel : Nat) (rest : CStr) (commands : List CStr), rest.length < fuel →
      commands.length ≤ MAX_ARGUMNETS →
      parseInputLoop delimiter fuel (some rest) commands =
        if commands.length + (keptTokens (strsepTokens delimiter rest)).length ≤ MAX_ARGUMNETS
        then Fill.stored (commands ++ keptTokens (strsepTokens delimiter rest))
        else Fill.overflow
  | 0, rest, _, h, _ => by omega
  | fuel + 1, rest, commands, h, hroom => by
      have hstep : ∀ (later : List CStr) (acc : List CStr),
          later = (match (strsep delimiter rest).2 with
                    | none => []
                    | some r => strsepTokens delimiter r) →
          acc.length ≤ MAX_ARGUMNETS →
          parseInputLoop delimiter fuel (strsep delimiter rest).2 acc =
            if acc.length + (keptTokens later).length ≤ MAX_ARGUMNETS
            then Fill.stored (acc ++ keptTokens later)
            else Fill.overflow := by
        intro later acc hlater hacc
        cases hr : (strsep delimiter rest).2 with
        | none =>
            rw [hr] at hlater
            subst hlater
            simp [parseInputLoop, keptTokens, hacc]
        | some r =>
            rw [hr] at hlater
            subst hlater
            have hlt : r.length < fuel := by
              have := strsep_rest_length delimiter rest r hr
              omega
            exact parseInputLoop_eq delimiter fuel r acc hlt hacc
      rw [strsepTokens_unfold delimiter rest]
      generalize hlater : (match (strsep delimiter rest).2 with
                    | none => []
                    | some r => strsepTokens delimiter r) = later
      have hs := fun acc => hstep later acc hlater.symm
      simp only [parseInputLoop]
      cases htok : (strsep delimiter rest).1 with
      | nil =>
          have hk : keptTokens ([] :: later) = keptTokens later := by
            simp [keptTokens, skipSpaces]
          simpa [hk] using hs commands hroom
      | cons a as =>
          cases hskip : skipSpaces (a :: as) with
          | nil =>
              have hk : keptTokens ((a :: as) :: later) = keptTokens later := by
                simp [keptTokens, hskip]
              simpa [hk] using hs commands hroom
          | cons b bs =>
              have hk : keptTokens ((a :: as) :: later) = (b :: bs) :: keptTokens later := by
                simp [keptTokens, hskip]
              rw [hk]
              by_cases hfit : commands.length < MAX_ARGUMNETS
              · have hacc : (commands ++ [b :: bs]).length ≤ MAX_ARGUMNETS := by
                  simp only [List.length_append, List.length_singleton]
                  omega
                have hrec := hs (commands ++ [b :: bs]) hacc
                simp only [List.length_append, List.length_singleton, List.append_assoc,
                  List.singleton_append] at hrec
                simp only [List.length_cons, gt_iff_lt, Nat.zero_lt_succ, if_true, if_pos hfit,
                  hrec]
                by_cases hall : commands.length + 1 + (keptTokens later).length ≤ MAX_ARGUMNETS
                · rw [if_pos hall, if_pos (by omega)]
                · rw [if_neg hall, if_neg (by omega)]
              · simp only [List.length_cons, gt_iff_lt, Nat.zero_lt_succ, if_true, if_neg hfit]
                rw [if_neg (by omega)]

/-- The function `parseInput` cuts the line at every character that occurs in the
delimiter text, strips the leading spaces of each piece and drops the pieces of which
nothing is left; it returns these commands when they fit the array `commands` together
with the NULL terminator, and `none` otherwise. -/
theorem parseInput_eq (input_str delimiter : CStr) :
    parseInput input_str delimiter =
      if (keptTokens (strsepTokens delimiter input_str)).length < MAX_ARGUMNETS
      then some (keptTokens (strsepTokens delimiter input_str))
      else none := by
  unfold parseInput
  rw [parseInputLoop_eq delimiter (input_str.length + 1) input_str [] (by omega)
    (by simp)]
  simp only [List.length_nil, Nat.zero_add, List.nil_append]
  by_cases h1 : (keptTokens (strsepTokens delimiter input_str)).length ≤ MAX_ARGUMNETS
  · rw [if_pos h1]
  · rw [if_neg h1, if_neg (by omega)]

/-- The list `strsepTokens` has at least one token. -/
theorem strsepTokens_cons (delim str : CStr) :
    strsepTokens delim str =
      (strsepTokens delim str).headD [] :: (strsepTokens delim str).tail := by
  rw [strsepTokens_unfold]
  rfl

/-- For a marker of one character the pieces between its occurrences are the tokens of
`strsep`. -/
theorem piecesBetween_single (c : Char) :
    ∀ (str piece : CStr),
      piecesBetween [c] 0 piece str =
        (piece.reverse ++ (strsepTokens [c] str).headD []) :: (strsepTokens [c] str).tail
  | [], piece => by simp [piecesBetween, strsepTokens]
  | x :: xs, piece => by
      rw [piecesBetween, strsepTokens]
      by_cases hx : x = c
      · subst hx
        have hpre : ([x] : CStr).isPrefixOf (x :: xs) = true := by simp [List.isPrefixOf]
        have hmem : ([x] : CStr).contains x = true := by simp
        have hskip : ([x] : CStr).length - 1 = 0 := rfl
        rw [if_pos hpre, if_pos hmem, hskip, piecesBetween_single x xs []]
        simp only [List.reverse_nil, List.nil_append, List.headD_cons, List.tail_cons,
          List.append_nil]
        rw [← strsepTokens_cons]
      · have hpre : ¬ ([c] : CStr).isPrefixOf (x :: xs) = true := by
          simp [List.isPrefixOf, Ne.symm hx]
        have hmem : ¬ ([c] : CStr).contains x = true := by simp [hx]
        rw [if_neg hpre, if_neg hmem, piecesBetween_single c xs (x :: piece)]
        simp

/-- For a marker of one character, such as the pipe marker, `parseInput` yields exactly
the pieces between the occurrences of the marker, stripped of leading spaces, without the
empty ones, in order, whenever these fit the array `commands`. -/
theorem parseInput_single_char_marker (c : Char) (line : CStr) :
    parseInput line [c] =
      if (splitOnMarker [c] line).length < MAX_ARGUMNETS then some (splitOnMarker [c] line)
      else none := by
  have hsplit : splitOnMarker [c] line = keptTokens (strsepTokens [c] line) := by
    unfold splitOnMarker keptTokens
    rw [piecesBetween_single c line [], List.reverse_nil, List.nil_append,
      ← strsepTokens_cons]
  rw [parseInput_eq, hsplit]

/-- Evaluation for C2 at the line `ls & pwd && date` with the marker `&&`: `parseInput`
cuts at every single `&` and yields three commands, where the pieces between the
occurrences of `&&` are two. -/
theorem parseInput_cuts_at_single_ampersand :
    parseInput "ls & pwd && date".toList ['&', '&']
      = some ["ls ".toList, "pwd ".toList, "date".toList] ∧
    splitOnMarker ['&', '&'] "ls & pwd && date".toList
      = ["ls & pwd ".toList, "date".toList] := by
  decide

/-! ## Mode selection -/

/-- Claim C1: for every non-empty line other than the exit token, the body of the main
loop does exactly what the one mode chosen by the priority order `&&`, `##`, `>`, `|`,
single prescribes for that line. -/
theorem main_selects_mode_by_priority (w : World) (line : CStr) (s : State)
    (hne : line ≠ []) (hexit : line ≠ exitToken) :
    mainIteration w line s = runMode w (modeByPriority line) line s := by
  have hlen : ¬ line.length = 0 := by
    intro h
    exact hne (List.length_eq_zero.mp h)
  unfold mainIteration modeByPriority
  rw [if_neg hlen, if_neg hexit]
  by_cases hpar : ['&', '&'] <:+: line
  · rw [if_pos ((strstr_isSome_iff line _).mpr hpar), if_pos hpar]
    rfl
  · rw [if_neg (fun h => hpar ((strstr_isSome_iff line _).mp h)), if_neg hpar]
    by_cases hseq : ['#', '#'] <:+: line
    · rw [if_pos ((strstr_isSome_iff line _).mpr hseq), if_pos hseq]
      rfl
    · rw [if_neg (fun h => hseq ((strstr_isSome_iff line _).mp h)), if_neg hseq]
      by_cases hred : ['>'] <:+: line
      · rw [if_pos ((strstr_isSome_iff line _).mpr hred), if_pos hred]
        rfl
      · rw [if_neg (fun h => hred ((strstr_isSome_iff line _).mp h)), if_neg hred]
        by_cases hpipe : ['|'] <:+: line
        · rw [if_pos ((strstr_isSome_iff line _).mpr hpipe), if_pos hpipe]
          rfl
        · rw [if_neg (fun h => hpipe ((strstr_isSome_iff line _).mp h)), if_neg hpipe]
          rfl

/-- Witness for C1: the line `ls > x | wc` carries two markers and is run in Redirected
mode, the higher of the two. -/
theorem main_selects_mode_by_priority_witness :
    modeByPriority "ls > x | wc".toList = ExecutionMode.Redirected ∧
    mainIteration demoWorld "ls > x | wc".toList demoState
      = runMode demoWorld (modeByPriority "ls > x | wc".toList) "ls > x | wc".toList demoState :=
  ⟨by decide,
   main_selects_mode_by_priority demoWorld "ls > x | wc".toList demoState
     (by decide) (by decide)⟩

/-! ## The trailing pipe marker -/

/-- Counterexample for C4: the line `ls ## wc |` ends in a bare pipe marker, yet the
interpreter forks two children and prints no notice, because the line is run in
Sequential mode. -/
theorem trailing_pipe_sequential_counterexample :
    "ls ## wc |".toList.getLast? = some '|' ∧
    (mainIteration demoWorld "ls ## wc |".toList demoState).forks = 2 ∧
    Event.printf "Shell: Incorrect command\n"
      ∉ (mainIteration demoWorld "ls ## wc |".toList demoState).trace := by
  decide

/-- Claim C4 as amended: a line whose last character is the pipe marker and that contains
none of `&&`, `##`, `>` makes the interpreter print the incorrect-command notice and do
nothing else: no `fork` is called. -/
theorem trailing_pipe_rejected (w : World) (line : CStr) (s : State)
    (hlast : line.getLast? = some '|')
    (hpar : ¬ ['&', '&'] <:+: line) (hseq : ¬ ['#', '#'] <:+: line)
    (hred : ¬ ['>'] <:+: line) :
    mainIteration w line s = s.emit (Event.printf "Shell: Incorrect command\n") ∧
    (mainIteration w line s).forks = s.forks ∧
    (mainIteration w line s).trace = s.trace ++ [Event.printf "Shell: Incorrect command\n"] := by
  have hmem : '|' ∈ line := List.mem_of_getLast?_eq_some hlast
  have hpipe : ['|'] <:+: line := singleton_infix_of_mem hmem
  have hlen : ¬ line.length = 0 := by
    intro h
    rw [List.length_eq_zero.mp h] at hmem
    simp at hmem
  have hexit : line ≠ exitToken := by
    intro h
    rw [h] at hmem
    revert hmem
    decide
  have hrun : mainIteration w line s = s.emit (Event.printf "Shell: Incorrect command\n") := by
    unfold mainIteration
    rw [if_neg hlen, if_neg hexit,
      if_neg (fun h => hpar ((strstr_isSome_iff line _).mp h)),
      if_neg (fun h => hseq ((strstr_isSome_iff line _).mp h)),
      if_neg (fun h => hred ((strstr_isSome_iff line _).mp h)),
      if_pos ((strstr_isSome_iff line _).mpr hpipe), if_pos hlast]
  rw [hrun]
  exact ⟨rfl, rfl, rfl⟩

/-- Witness for C4 as amended, at the line `ls |`. -/
theorem trailing_pipe_rejected_witness :
    mainIteration demoWorld "ls |".toList demoState
        = demoState.emit (Event.printf "Shell: Incorrect command\n") ∧
    (mainIteration demoWorld "ls |".toList demoState).forks = demoState.forks ∧
    (mainIteration demoWorld "ls |".toList demoState).trace
        = demoState.trace ++ [Event.printf "Shell: Incorrect command\n"] :=
  trailing_pipe_rejected demoWorld "ls |".toList demoState (by decide) (by decide)
    (by decide) (by decide)

/-! ## The redirection split of `executeCommand` -/

/-- A run of characters that satisfy the test, followed by one that does not, is taken
whole. -/
theorem takeWhile_append_stop (p : Char → Bool) (front back : CStr) (c : Char)
    (hfront : ∀ x ∈ front, p x = true) (hc : p c = false) :
    (front ++ c :: back).takeWhile p = front := by
  induction front with
  | nil => simp [List.takeWhile_cons, hc]
  | cons a as ih =>
      have ha : p a = true := hfront a (List.mem_cons_self a as)
      have has : ∀ x ∈ as, p x = true := fun x hx => hfront x (List.mem_cons_of_mem a hx)
      rw [List.cons_append, List.takeWhile_cons, if_pos ha, ih has]

/-- Dropping a run of characters that satisfy the test stops at the first one that does
not. -/
theorem dropWhile_append_stop (p : Char → Bool) (front back : CStr) (c : Char)
    (hfront : ∀ x ∈ front, p x = true) (hc : p c = false) :
    (front ++ c :: back).dropWhile p = c :: back := by
  induction front with
  | nil => simp [List.dropWhile_cons, hc]
  | cons a as ih =>
      have ha : p a = true := hfront a (List.mem_cons_self a as)
      have has : ∀ x ∈ as, p x = true := fun x hx => hfront x (List.mem_cons_of_mem a hx)
      rw [List.cons_append, List.dropWhile_cons, if_pos ha, ih has]

/-- The first `strtok` call on a text that does not begin with the delimiter cuts at the
first delimiter. -/
theorem strtok_cut (front back : CStr) (hfront : '>' ∉ front) (hne : front ≠ []) :
    strtok (front ++ '>' :: back) ['>'] = (some front, back) := by
  have hnot : ∀ x ∈ front, (fun c => !(['>'] : CStr).contains c) x = true := by
    intro x hx
    have hxne : x ≠ '>' := fun h => hfront (h ▸ hx)
    simp [hxne]
  have hgt : (fun c => !(['>'] : CStr).contains c) '>' = false := by decide
  cases front with
  | nil => exact absurd rfl hne
  | cons a as =>
      have ha : (['>'] : CStr).contains a = false := by
        simpa using hnot a (List.mem_cons_self a as)
      have hdrop : ((a :: as) ++ '>' :: back).dropWhile (fun c => (['>'] : CStr).contains c)
          = (a :: as) ++ '>' :: back := by
        rw [List.cons_append, List.dropWhile_cons, if_neg (by rw [ha]; simp)]
      unfold strtok
      simp only [hdrop]
      rw [takeWhile_append_stop _ (a :: as) back '>' hnot hgt,
        dropWhile_append_stop _ (a :: as) back '>' hnot hgt]
      rfl

/-- The call `strtok(NULL, "")`: the whole text at the saved position, or NULL when that
text is empty. -/
theorem strtok_rest (saved : CStr) :
    (strtok saved []).1 = if saved = [] then none else some saved := by
  cases saved with
  | nil => rfl
  | cons a as =>
      have htake : ∀ l : CStr, l.takeWhile (fun c => !([] : CStr).contains c) = l := by
        intro l
        induction l with
        | nil => rfl
        | cons b bs ih => simp [List.takeWhile]
      unfold strtok
      simp only [List.dropWhile, List.contains_nil, List.isEmpty_cons, Bool.false_eq_true,
        if_false, htake]
      simp

/-- The redirection block on a command string that has text in front of its first `>`:
the command part is that text, and the target is the trimmed text behind the `>`, or
absent when nothing follows. -/
theorem splitRedirection_cut (front back : CStr) (hfront : '>' ∉ front) (hne : front ≠ []) :
    splitRedirection (front ++ '>' :: back) =
      { redirect_flag := true,
        output_file := if back = [] then none else some (trimTrailingSpaces (skipSpaces back)),
        command_str := some front } := by
  have hfound : (strstr (front ++ '>' :: back) ['>']).isSome = true :=
    (strstr_isSome_iff _ _).mpr (singleton_infix_of_mem (by simp))
  unfold splitRedirection
  cases hs : strstr (front ++ '>' :: back) ['>'] with
  | none => rw [hs] at hfound; simp at hfound
  | some found =>
      simp only [strtok_cut front back hfront hne, strtok_rest]
      by_cases hb : back = []
      · simp [hb]
      · simp [hb]

/-- The argument list of the empty command part is empty. -/
theorem parseCommandArgs_nil : parseCommandArgs (some []) = some [] := by decide

/-- Leading-space trimming of a text made of spaces leaves nothing. -/
theorem skipSpaces_blank : ∀ (p : CStr), (∀ c ∈ p, c = ' ') → skipSpaces p = []
  | [], _ => rfl
  | c :: cs, h => by
      have hc : c = ' ' := h c (List.mem_cons_self c cs)
      rw [skipSpaces, if_pos hc]
      exact skipSpaces_blank cs (fun x hx => h x (List.mem_cons_of_mem c hx))

/-- What `executeCommand` does for a program other than `cd` whose arguments fit the
array `args`, when the `fork` succeeds. -/
theorem executeCommand_fork (w : World) (command_str : CStr) (s : State)
    (prog : CStr) (rest : List CStr)
    (hargs : parseCommandArgs (splitRedirection command_str).command_str
      = some (prog :: rest))
    (hprog : prog ≠ cdName) (hfork : w.forkOk s.forks = true) :
    executeCommand w command_str s =
      { s with
        forks := s.forks + 1,
        trace := s.trace ++
          [Event.fork (w.pidOf s.forks)
             (executeCommandChild w s.cwd s.fds (splitRedirection command_str) (prog :: rest)),
           Event.waitpid (w.pidOf s.forks)] } := by
  unfold executeCommand
  simp only [hargs, if_neg hprog, hfork, if_true, sysFork, sysWaitpid, State.emit,
    List.append_assoc, List.singleton_append]

/-! ## Redirection targets -/

/-- Evaluation for C3 at the command string `> out.txt`: the redirection block records no
target and hands ` out.txt` to the argument parser, so that `out.txt` becomes the program
name and a child is forked to execute it. -/
theorem leading_redirect_runs_target :
    splitRedirection "> out.txt".toList =
      { redirect_flag := true, output_file := none, command_str := some " out.txt".toList } ∧
    parseCommandArgs (splitRedirection "> out.txt".toList).command_str
      = some ["out.txt".toList] ∧
    (executeCommand demoWorld "> out.txt".toList demoState).trace =
      [Event.fork 100 [ChildOp.execvp ["out.txt".toList] true], Event.waitpid 100] := by
  decide

/-- Counterexample for C5: the line `cd /tmp > out.txt` is run by the interpreter itself
with one `chdir` and no child, and the line `ls > out.txt && pwd` forks two children
neither of which opens a file; in both cases `out.txt` is never opened. -/
theorem redirection_not_opened_counterexample :
    (mainIteration demoWorld "cd /tmp > out.txt".toList demoState).trace =
      [Event.chdir (some "/tmp".toList) true] ∧
    (mainIteration demoWorld "ls > out.txt && pwd".toList demoState).trace =
      [Event.fork 100 [ChildOp.execvp ["ls".toList, ">".toList, "out.txt".toList] true],
       Event.fork 101 [ChildOp.execvp ["pwd".toList] true],
       Event.waitpid 100, Event.waitpid 101] := by
  decide

/-- Claim C5 as amended: when `executeCommand` runs a command string that has, in front of
its first `>`, an argument list of fewer than `MAX_ARGUMNETS` entries (so that
`parseCommandArgs` stays inside the array `args` and returns it) whose first entry, the
program name, is not `cd`, and a non-blank target behind the `>`, and the `fork` succeeds,
then the interpreter forks one
child and waits for it, and the first thing the child does is
`open(target, O_WRONLY | O_CREAT | O_TRUNC, 0644)`; with the descriptor it makes that file
its standard output and calls `execvp`, without it the child reports the failure and exits
with status 1. -/
theorem redirection_opens_target (w : World) (s : State) (front back prog : CStr)
    (rest : List CStr)
    (hfront : '>' ∉ front) (hargs : parseCommandArgs (some front) = some (prog :: rest))
    (hprog : prog ≠ cdName)
    (htarget : trimTrailingSpaces (skipSpaces back) ≠ [])
    (hfork : w.forkOk s.forks = true) :
    (executeCommand w (front ++ '>' :: back) s).trace =
      s.trace ++
        [Event.fork (w.pidOf s.forks)
           (ChildOp.openTrunc (trimTrailingSpaces (skipSpaces back)) 0o644
              (childOpen w s.cwd s.fds (trimTrailingSpaces (skipSpaces back))) ::
            (match childOpen w s.cwd s.fds (trimTrailingSpaces (skipSpaces back)) with
              | some fd =>
                  ChildOp.dup2 fd 1 :: ChildOp.close fd ::
                    childExec w (prog :: rest)
                      [ChildOp.printf "Shell: Incorrect command", ChildOp.printf "\n"]
              | none => [ChildOp.perror "open failed", ChildOp.exit 1])),
         Event.waitpid (w.pidOf s.forks)] := by
  have hne : front ≠ [] := by
    intro h
    rw [h, parseCommandArgs_nil] at hargs
    exact absurd hargs (by simp)
  have hback : back ≠ [] := by
    intro h
    apply htarget
    rw [h]
    rfl
  have hsplit := splitRedirection_cut front back hfront hne
  rw [if_neg hback] at hsplit
  rw [executeCommand_fork w _ s prog rest (by rw [hsplit]; exact hargs) hprog hfork, hsplit]
  simp only [executeCommandChild]
  cases childOpen w s.cwd s.fds (trimTrailingSpaces (skipSpaces back)) with
  | none => rfl
  | some fd => rfl

/-- Witness for C5 as amended, at the command string `ls > out.txt`. -/
theorem redirection_opens_target_witness :
    (executeCommand demoWorld ("ls ".toList ++ '>' :: " out.txt".toList) demoState).trace =
      [Event.fork 100
         [ChildOp.openTrunc "out.txt".toList 0o644 (some 3), ChildOp.dup2 3 1, ChildOp.close 3,
          ChildOp.execvp ["ls".toList] true],
       Event.waitpid 100] :=
  redirection_opens_target demoWorld demoState "ls ".toList " out.txt".toList "ls".toList []
    (by decide) (by decide) (by decide) (by decide) (by decide)

/-- Counterexample for C6: in `ls >` nothing follows the `>`; no target is recorded and
the child executes `ls` without any redirection and without reporting an error. -/
theorem empty_target_runs_program_counterexample :
    (splitRedirection "ls >".toList).output_file = none ∧
    (executeCommand demoWorld "ls >".toList demoState).trace =
      [Event.fork 100 [ChildOp.execvp ["ls".toList] true], Event.waitpid 100] := by
  decide

/-- Claim C6 as amended: take a command string whose first `>` is followed by nothing but
spaces and which has, in front of the `>`, an argument list of fewer than `MAX_ARGUMNETS`
entries (so that `parseCommandArgs` stays inside the array `args` and returns it) whose
first entry, the program name, is not `cd`.  When at least one space
follows the `>`, the child opens the empty path, which fails; it reports `open failed` and
exits with status 1 without executing the program.  When nothing at all follows the `>`,
no target is recorded and the child executes the program without redirection. -/
theorem blank_target_is_error (w : World) (s : State) (front back prog : CStr)
    (rest : List CStr)
    (hfront : '>' ∉ front) (hargs : parseCommandArgs (some front) = some (prog :: rest))
    (hprog : prog ≠ cdName)
    (hblank : ∀ c ∈ back, c = ' ')
    (hfork : w.forkOk s.forks = true) :
    (executeCommand w (front ++ '>' :: back) s).trace =
      s.trace ++
        [Event.fork (w.pidOf s.forks)
           (if back = [] then
              childExec w (prog :: rest)
                [ChildOp.printf "Shell: Incorrect command", ChildOp.printf "\n"]
            else
              [ChildOp.openTrunc [] 0o644 none, ChildOp.perror "open failed", ChildOp.exit 1]),
         Event.waitpid (w.pidOf s.forks)] := by
  have hne : front ≠ [] := by
    intro h
    rw [h, parseCommandArgs_nil] at hargs
    exact absurd hargs (by simp)
  have htrim : trimTrailingSpaces (skipSpaces back) = [] := by
    rw [skipSpaces_blank back hblank]
    rfl
  have hsplit := splitRedirection_cut front back hfront hne
  rw [htrim] at hsplit
  rw [executeCommand_fork w _ s prog rest (by rw [hsplit]; exact hargs) hprog hfork, hsplit]
  by_cases hback : back = []
  · rw [if_pos hback, if_pos hback]
    rfl
  · rw [if_neg hback, if_neg hback]
    rfl

/-- Witness for C6 as amended, at the command string `ls > ` with one space behind the
`>`. -/
theorem blank_target_is_error_witness :
    (executeCommand demoWorld ("ls ".toList ++ '>' :: " ".toList) demoState).trace =
      [Event.fork 100
         [ChildOp.openTrunc [] 0o644 none, ChildOp.perror "open failed", ChildOp.exit 1],
       Event.waitpid 100] :=
  blank_target_is_error demoWorld demoState "ls ".toList " ".toList "ls".toList []
    (by decide) (by decide) (by decide) (by decide) (by decide)

/-! ## Parallel mode -/

/-- The wait loop of `executeParallelCommands`: one blocking wait per recorded pid, in
the order of the array. -/
theorem parallelWaitLoop_trace :
    ∀ (pids : List Nat) (s : State),
      parallelWaitLoop pids s = { s with trace := s.trace ++ pids.map Event.waitpid }
  | [], s => by simp [parallelWaitLoop]
  | pid :: later, s => by
      rw [parallelWaitLoop, parallelWaitLoop_trace later]
      simp [sysWaitpid, State.emit]

/-- The fork loop of `executeParallelCommands` when every `fork` succeeds: one `fork` per
command, in list order, then the waits for the pids recorded before and during the
loop. -/
theorem parallelForkLoop_ok (w : World) :
    ∀ (commands : List CStr) (s : State) (pids : List Nat),
      (∀ k, k < commands.length → w.forkOk (s.forks + k) = true) →
      parallelForkLoop w commands s pids =
        { s with
            forks := s.forks + commands.length,
            trace := s.trace
              ++ (commands.enumFrom s.forks).map
                  (fun ic => Event.fork (w.pidOf ic.1) (parallelChild w s.cwd ic.2))
              ++ (pids ++ (List.range' s.forks commands.length).map w.pidOf).map
                  Event.waitpid }
  | [], s, pids, _ => by simp [parallelForkLoop, parallelWaitLoop_trace]
  | command :: later, s, pids, h => by
      have h0 : w.forkOk s.forks = true := by simpa using h 0 (by simp)
      have hlater : ∀ k, k < later.length →
          w.forkOk ((sysFork w (parallelChild w s.cwd command) s).1.forks + k) = true := by
        intro k hk
        have := h (k + 1) (by simp; omega)
        simpa [sysFork, State.emit, Nat.add_assoc, Nat.add_comm 1 k] using this
      rw [parallelForkLoop, if_pos h0, parallelForkLoop_ok w later _ _ hlater]
      simp [sysFork, State.emit, List.enumFrom_cons, List.range'_succ, Nat.add_assoc,
        Nat.add_comm 1 later.length]

/-- Claim C7: when none of the `n` forks fails, the operations that
`executeParallelCommands` issues are exactly `n` forks, one per command in list order,
followed by `n` blocking waits on the pids those forks returned, in the same order; so
no wait comes before the last fork. -/
theorem parallel_forks_then_waits (w : World) (commands : List CStr) (s : State)
    (hfork : ∀ k, k < commands.length → w.forkOk (s.forks + k) = true) :
    (executeParallelCommands w commands s).trace =
      s.trace
        ++ (commands.enumFrom s.forks).map
            (fun ic => Event.fork (w.pidOf ic.1) (parallelChild w s.cwd ic.2))
        ++ ((List.range' s.forks commands.length).map w.pidOf).map Event.waitpid
    ∧ (executeParallelCommands w commands s).forks = s.forks + commands.length
    ∧ (executeParallelCommands w commands s).exited = s.exited := by
  unfold executeParallelCommands
  rw [parallelForkLoop_ok w commands s [] hfork]
  exact ⟨rfl, rfl, rfl⟩

/-- Witness for C7 at the two commands of the line `sleep 1 && sleep 2`. -/
theorem parallel_forks_then_waits_witness :
    parseInput "sleep 1 && sleep 2".toList ['&', '&']
      = some ["sleep 1 ".toList, "sleep 2".toList]
    ∧ (executeParallelCommands demoWorld ["sleep 1 ".toList, "sleep 2".toList]
        demoState).trace =
      [Event.fork 100 [ChildOp.execvp ["sleep".toList, "1".toList] true],
       Event.fork 101 [ChildOp.execvp ["sleep".toList, "2".toList] true],
       Event.waitpid 100, Event.waitpid 101]
    ∧ (executeParallelCommands demoWorld ["sleep 1 ".toList, "sleep 2".toList]
        demoState).forks = 2
    ∧ (executeParallelCommands demoWorld ["sleep 1 ".toList, "sleep 2".toList]
        demoState).exited = none :=
  ⟨by decide,
   parallel_forks_then_waits demoWorld ["sleep 1 ".toList, "sleep 2".toList] demoState
     (by decide)⟩

/-! ## The built-in `cd` -/

/-- The wait loop of `executeParallelCommands` leaves the working directory alone. -/
theorem parallelWaitLoop_cwd (pids : List Nat) (s : State) :
    (parallelWaitLoop pids s).cwd = s.cwd := by
  rw [parallelWaitLoop_trace]

/-- The two loops of `executeParallelCommands` leave the working directory of the
interpreter alone, whether or not a `fork` fails. -/
theorem parallelForkLoop_cwd (w : World) :
    ∀ (commands : List CStr) (s : State) (pids : List Nat),
      (parallelForkLoop w commands s pids).cwd = s.cwd
  | [], s, pids => by rw [parallelForkLoop, parallelWaitLoop_cwd]
  | command :: later, s, pids => by
      rw [parallelForkLoop]
      by_cases h0 : w.forkOk s.forks = true
      · rw [if_pos h0, parallelForkLoop_cwd w later]
        rfl
      · rw [if_neg h0]
        rfl

/-- The built-in `cd` inside `executeCommand`, for an argument list that fits the array
`args`: `fork` is not called and the interpreter goes on.  Without argument or with `~`
the interpreter calls `chdir` on `HOME`; it is in the directory `HOME` names afterwards
when there is one, and where it was, with nothing reported, when there is none.  With
another argument it is in the directory the argument names when the change succeeds, and
where it was, with `perror("cd")` issued, when the change fails.  Run as one of the
commands of `executeParallelCommands`, the same command leaves the working directory of
the interpreter as it was. -/
theorem builtinCd_effect (w : World) (command_str : CStr) (s : State)
    (rest : List CStr)
    (hcd : parseCommandArgs (splitRedirection command_str).command_str
      = some (cdName :: rest)) :
    (executeCommand w command_str s).forks = s.forks
    ∧ (∀ pid child, Event.fork pid child ∈ (executeCommand w command_str s).trace →
        Event.fork pid child ∈ s.trace)
    ∧ (executeCommand w command_str s).exited = s.exited
    ∧ ((rest = [] ∨ rest.head? = some tilde) →
        (executeCommand w command_str s).trace =
            s.trace ++ [Event.chdir w.home (w.home.bind (w.resolve s.cwd)).isSome]
        ∧ (∀ dir, w.home.bind (w.resolve s.cwd) = some dir →
            (executeCommand w command_str s).cwd = dir)
        ∧ (w.home.bind (w.resolve s.cwd) = none →
            (executeCommand w command_str s).cwd = s.cwd))
    ∧ (∀ arg more, rest = arg :: more → arg ≠ tilde →
        (∀ dir, w.resolve s.cwd arg = some dir →
            (executeCommand w command_str s).cwd = dir
            ∧ (executeCommand w command_str s).trace =
                s.trace ++ [Event.chdir (some arg) true])
        ∧ (w.resolve s.cwd arg = none →
            (executeCommand w command_str s).cwd = s.cwd
            ∧ (executeCommand w command_str s).trace =
                s.trace ++ [Event.chdir (some arg) false, Event.perror "cd"]))
    ∧ (∀ commands, command_str ∈ commands →
        (executeParallelCommands w commands s).cwd = s.cwd) := by
  have hrun : executeCommand w command_str s = builtinCd w rest s := by
    unfold executeCommand
    simp only [hcd, if_true]
  have hhome : (sysChdir w w.home s).1.forks = s.forks
      ∧ (∀ pid child, Event.fork pid child ∈ (sysChdir w w.home s).1.trace →
          Event.fork pid child ∈ s.trace)
      ∧ (sysChdir w w.home s).1.exited = s.exited
      ∧ (sysChdir w w.home s).1.trace =
          s.trace ++ [Event.chdir w.home (w.home.bind (w.resolve s.cwd)).isSome]
      ∧ (∀ dir, w.home.bind (w.resolve s.cwd) = some dir → (sysChdir w w.home s).1.cwd = dir)
      ∧ (w.home.bind (w.resolve s.cwd) = none → (sysChdir w w.home s).1.cwd = s.cwd) := by
    unfold sysChdir
    cases hres : w.home.bind (w.resolve s.cwd) with
    | none => simp [State.emit]
    | some dir => simp [State.emit]
  rw [hrun]
  refine ⟨?_, ?_, ?_, ?_, ?_, ?_⟩
  · cases rest with
    | nil => exact hhome.1
    | cons arg more =>
        simp only [builtinCd]
        by_cases ht : arg = tilde
        · rw [if_pos ht]; exact hhome.1
        · rw [if_neg ht]
          unfold sysChdir
          cases hres : (some arg).bind (w.resolve s.cwd) with
          | none => simp [State.emit]
          | some dir => simp [State.emit]
  · cases rest with
    | nil => exact hhome.2.1
    | cons arg more =>
        simp only [builtinCd]
        by_cases ht : arg = tilde
        · rw [if_pos ht]; exact hhome.2.1
        · rw [if_neg ht]
          unfold sysChdir
          cases hres : (some arg).bind (w.resolve s.cwd) with
          | none => simp [State.emit]
          | some dir => simp [State.emit]
  · cases rest with
    | nil => exact hhome.2.2.1
    | cons arg more =>
        simp only [builtinCd]
        by_cases ht : arg = tilde
        · rw [if_pos ht]; exact hhome.2.2.1
        · rw [if_neg ht]
          unfold sysChdir
          cases hres : (some arg).bind (w.resolve s.cwd) with
          | none => simp [State.emit]
          | some dir => simp [State.emit]
  · intro hcase
    cases rest with
    | nil => exact hhome.2.2.2
    | cons arg more =>
        have ht : arg = tilde := by
          rcases hcase with h | h
          · exact absurd h (by simp)
          · simpa using h
        simp only [builtinCd]
        rw [if_pos ht]
        exact hhome.2.2.2
  · intro arg more hrest ht
    subst hrest
    simp only [builtinCd]
    rw [if_neg ht]
    constructor
    · intro dir hdir
      have hres : (some arg).bind (w.resolve s.cwd) = some dir := by simpa using hdir
      unfold sysChdir
      simp [hres, State.emit]
    · intro hnone
      have hres : (some arg).bind (w.resolve s.cwd) = none := by simpa using hnone
      unfold sysChdir
      simp [hres, State.emit]
  · intro commands _
    exact parallelForkLoop_cwd w commands s []

/-- When `HOME` is unset or names no directory the interpreter can enter, `cd` without
argument leaves the interpreter where it was and reports nothing: the result of
`chdir(getenv("HOME"))` is not looked at. -/
theorem cd_home_unavailable (w : World) (command_str : CStr) (s : State)
    (hcd : parseCommandArgs (splitRedirection command_str).command_str = some [cdName])
    (hhome : w.home.bind (w.resolve s.cwd) = none) :
    executeCommand w command_str s = s.emit (Event.chdir w.home false) := by
  unfold executeCommand
  simp only [hcd, if_true, builtinCd, sysChdir, hhome]

/-- Evaluation for C8 at the line `cd` entered in `/tmp` while `HOME` names a directory
that does not exist: the interpreter calls `chdir` on it, the call fails, and that is all.
The interpreter is still in `/tmp`, not in the home directory, and no error is reported,
whereas the branch for an explicit argument reports the same failure with
`perror("cd")`. -/
theorem cd_home_failure_unreported :
    executeCommand lostHomeWorld "cd".toList demoState
      = demoState.emit (Event.chdir (some "/nonexistent".toList) false) ∧
    (executeCommand lostHomeWorld "cd".toList demoState).cwd = "/tmp".toList ∧
    (executeCommand lostHomeWorld "cd".toList demoState).trace
      = [Event.chdir (some "/nonexistent".toList) false] ∧
    (executeCommand lostHomeWorld "cd /nonexistent".toList demoState).trace
      = [Event.chdir (some "/nonexistent".toList) false, Event.perror "cd"] := by
  decide

/-! ## The capacity of the global arrays -/

/-- Forty-nine arguments fit the array `args` together with the NULL terminator; with
fifty the terminator is stored past the end and `parseCommandArgs` returns `none`. -/
theorem parseCommandArgs_capacity :
    (parseCommandArgs (some (List.replicate 49 ['a', ' ']).flatten)).map List.length = some 49 ∧
    parseCommandArgs (some (List.replicate 50 ['a', ' ']).flatten) = none := by
  decide

/-- A command of fifty arguments followed by a redirection: the NULL terminator of `args`
is stored past the end of the array, and the model says nothing about what the
interpreter does next; in particular it does not say that a child opens the target. -/
theorem executeCommand_fifty_arguments :
    executeCommand demoWorld ((List.replicate 50 ['a', ' ']).flatten ++ '>' :: " out".toList)
      demoState = demoState.outOfBounds := by
  decide

/-- After a store past the end of `args` the model does not follow `executeCommand` any
further. -/
theorem executeCommand_outOfBounds (w : World) (command_str : CStr) (s : State)
    (hargs : parseCommandArgs (splitRedirection command_str).command_str = none) :
    executeCommand w command_str s = s.outOfBounds := by
  unfold executeCommand
  simp only [hargs]

/-! ## Descriptors in piped mode -/

/-- Evaluation for C9 at the two stages of the line `ls | wc`: the read end 3 of the first
pipe is never closed by the interpreter and is still open when the call returns. -/
theorem pipeline_leaks_read_end :
    parseInput "ls | wc".toList ['|'] = some ["ls ".toList, "wc".toList] ∧
    (executePipedCommands demoWorld ["ls ".toList, "wc".toList] demoState).trace =
      [Event.pipe 3 4,
       Event.fork 100 [ChildOp.dup2 4 1, ChildOp.close 4, ChildOp.close 3,
         ChildOp.execvp ["ls".toList] true],
       Event.close 4, Event.waitpid 100,
       Event.pipe 4 5,
       Event.fork 101 [ChildOp.dup2 3 0, ChildOp.close 3, ChildOp.close 4,
         ChildOp.execvp ["wc".toList] true],
       Event.close 5, Event.waitpid 101,
       Event.close 4] ∧
    (executePipedCommands demoWorld ["ls ".toList, "wc".toList] demoState).fds = [3, 0, 1, 2] := by
  decide

/-- Evaluation for C10 at the line that is a pipe marker followed by one space: the line
is routed to piped mode, `parseInput` yields no command, and the only thing
`executePipedCommands` does is close descriptor 0, the standard input of the
interpreter. -/
theorem empty_pipeline_closes_stdin :
    (strstr "| ".toList ['|']).isSome = true ∧
    "| ".toList.getLast? ≠ some '|' ∧
    parseInput "| ".toList ['|'] = some [] ∧
    (mainIteration demoWorld "| ".toList demoState).trace = [Event.close 0] ∧
    (mainIteration demoWorld "| ".toList demoState).fds = [1, 2] := by
  decide

/-- One round of the loop of `executePipedCommands` in the parent when the `fork`
succeeds: the parent issues `pipe`, `fork`, `close` of the write end and `waitpid`; of the
two new descriptors the read end stays open, on top of everything that was open before. -/
theorem pipedLoop_step (w : World) (n i input_fd : Nat) (command : CStr) (later : List CStr)
    (s : State) (hfork : w.forkOk s.forks = true) :
    ∃ s1 : State,
      pipedLoop w n i (command :: later) input_fd s
        = pipedLoop w n (i + 1) later (lowestFree s.fds) s1
      ∧ s1.fds = lowestFree s.fds :: s.fds
      ∧ s1.forks = s.forks + 1
      ∧ s1.trace = s.trace ++
          [Event.pipe (lowestFree s.fds) (lowestFree (lowestFree s.fds :: s.fds)),
           Event.fork (w.pidOf s.forks)
             (pipedChild w n i input_fd (lowestFree s.fds)
               (lowestFree (lowestFree s.fds :: s.fds)) command),
           Event.close (lowestFree (lowestFree s.fds :: s.fds)),
           Event.waitpid (w.pidOf s.forks)] := by
  refine ⟨sysWaitpid (w.pidOf s.forks)
    (sysClose (lowestFree (lowestFree s.fds :: s.fds))
      (sysFork w (pipedChild w n i input_fd (lowestFree s.fds)
        (lowestFree (lowestFree s.fds :: s.fds)) command) (sysPipe s).1).1), ?_, ?_, ?_, ?_⟩
  · have hf : w.forkOk (sysPipe s).1.forks = true := hfork
    rw [pipedLoop]
    simp only [hf, if_true]
    rfl
  · simp [sysWaitpid, sysClose, sysFork, sysPipe, State.emit]
  · simp [sysWaitpid, sysClose, sysFork, sysPipe, State.emit]
  · simp [sysWaitpid, sysClose, sysFork, sysPipe, State.emit]

/-- From the second round on, `input_fd` is the descriptor opened last; the loop then
ends with one open descriptor more per remaining round, less the one closed behind the
loop. -/
theorem pipedLoop_fds_length (w : World) (n : Nat) :
    ∀ (commands : List CStr) (i input_fd : Nat) (s : State),
      s.fds.head? = some input_fd →
      (∀ k, k < commands.length → w.forkOk (s.forks + k) = true) →
      (pipedLoop w n i commands input_fd s).fds.length + 1 = s.fds.length + commands.length
  | [], i, input_fd, s, hhead, _ => by
      cases hfds : s.fds with
      | nil => rw [hfds] at hhead; simp at hhead
      | cons fd others =>
          rw [hfds] at hhead
          have hfd : fd = input_fd := by simpa using hhead
          subst hfd
          simp [pipedLoop, sysClose, State.emit, hfds]
  | command :: later, i, input_fd, s, _, hfork => by
      have h0 : w.forkOk s.forks = true := by simpa using hfork 0 (by simp)
      obtain ⟨s1, hstep, hfds, hforks, _⟩ := pipedLoop_step w n i input_fd command later s h0
      have hlater : ∀ k, k < later.length → w.forkOk (s1.forks + k) = true := by
        intro k hk
        have := hfork (k + 1) (by simp; omega)
        rw [hforks]
        simpa [Nat.add_assoc, Nat.add_comm 1 k] using this
      have ih := pipedLoop_fds_length w n later (i + 1) (lowestFree s.fds) s1
        (by rw [hfds]; rfl) hlater
      rw [hstep]
      rw [hfds] at ih
      simp only [List.length_cons] at ih ⊢
      omega

/-- A pipeline of `n + 1` stages leaves `n` descriptors more open than before the call:
the read ends of all pipes but the last are never closed by the interpreter.  Only a
single stage leaves the descriptor table as it was. -/
theorem executePipedCommands_fds_length (w : World) (command : CStr) (later : List CStr)
    (s : State)
    (hfork : ∀ k, k < (command :: later).length → w.forkOk (s.forks + k) = true) :
    (executePipedCommands w (command :: later) s).fds.length = s.fds.length + later.length := by
  have h0 : w.forkOk s.forks = true := by simpa using hfork 0 (by simp)
  obtain ⟨s1, hstep, hfds, hforks, _⟩ :=
    pipedLoop_step w (command :: later).length 0 0 command later s h0
  have hlater : ∀ k, k < later.length → w.forkOk (s1.forks + k) = true := by
    intro k hk
    have := hfork (k + 1) (by simp; omega)
    rw [hforks]
    simpa [Nat.add_assoc, Nat.add_comm 1 k] using this
  have ih := pipedLoop_fds_length w (command :: later).length later (0 + 1) (lowestFree s.fds) s1
    (by rw [hfds]; rfl) hlater
  have hlen : (lowestFree s.fds :: s.fds).length = s.fds.length + 1 := rfl
  unfold executePipedCommands
  rw [hstep]
  rw [hfds, hlen] at ih
  omega

/-- Every descriptor that the loop of `executePipedCommands` and the `close` behind it
close is either the `input_fd` the loop was entered with or an end of a pipe made in the
loop. -/
theorem pipedLoop_closes (w : World) (n : Nat) :
    ∀ (commands : List CStr) (i input_fd : Nat) (s : State),
      (∀ k, k < commands.length → w.forkOk (s.forks + k) = true) →
      ∃ added : List Event,
        (pipedLoop w n i commands input_fd s).trace = s.trace ++ added
        ∧ ∀ fd, Event.close fd ∈ added →
            (commands = [] ∧ fd = input_fd)
            ∨ ∃ readEnd writeEnd, Event.pipe readEnd writeEnd ∈ added
                ∧ (fd = readEnd ∨ fd = writeEnd)
  | [], i, input_fd, s, _ => by
      refine ⟨[Event.close input_fd], rfl, ?_⟩
      intro fd hfd
      left
      simpa using hfd
  | command :: later, i, input_fd, s, hfork => by
      have h0 : w.forkOk s.forks = true := by simpa using hfork 0 (by simp)
      obtain ⟨s1, hstep, _, hforks, htrace⟩ := pipedLoop_step w n i input_fd command later s h0
      have hlater : ∀ k, k < later.length → w.forkOk (s1.forks + k) = true := by
        intro k hk
        have := hfork (k + 1) (by simp; omega)
        rw [hforks]
        simpa [Nat.add_assoc, Nat.add_comm 1 k] using this
      obtain ⟨added, hadded, hclose⟩ :=
        pipedLoop_closes w n later (i + 1) (lowestFree s.fds) s1 hlater
      refine ⟨[Event.pipe (lowestFree s.fds) (lowestFree (lowestFree s.fds :: s.fds)),
           Event.fork (w.pidOf s.forks)
             (pipedChild w n i input_fd (lowestFree s.fds)
               (lowestFree (lowestFree s.fds :: s.fds)) command),
           Event.close (lowestFree (lowestFree s.fds :: s.fds)),
           Event.waitpid (w.pidOf s.forks)] ++ added, ?_, ?_⟩
      · rw [hstep, hadded, htrace, List.append_assoc]
      · intro fd hfd
        right
        rcases List.mem_append.mp hfd with hhead | htail
        · exact ⟨lowestFree s.fds, lowestFree (lowestFree s.fds :: s.fds), by simp,
            Or.inr (by simpa using hhead)⟩
        · rcases hclose fd htail with ⟨_, hin⟩ | ⟨r, wr, hpipe, hfdrw⟩
          · exact ⟨lowestFree s.fds, lowestFree (lowestFree s.fds :: s.fds), by simp,
              Or.inl hin⟩
          · exact ⟨r, wr, List.mem_append_right _ hpipe, hfdrw⟩

/-- With at least one stage and no failing `fork`, `executePipedCommands` closes only ends
of pipes that it made in the same call. -/
theorem executePipedCommands_closes_own (w : World) (command : CStr) (later : List CStr)
    (s : State)
    (hfork : ∀ k, k < (command :: later).length → w.forkOk (s.forks + k) = true) :
    ∃ added : List Event,
      (executePipedCommands w (command :: later) s).trace = s.trace ++ added
      ∧ ∀ fd, Event.close fd ∈ added →
          ∃ readEnd writeEnd, Event.pipe readEnd writeEnd ∈ added
            ∧ (fd = readEnd ∨ fd = writeEnd) := by
  obtain ⟨added, hadded, hclose⟩ :=
    pipedLoop_closes w (command :: later).length (command :: later) 0 0 s hfork
  refine ⟨added, hadded, ?_⟩
  intro fd hfd
  rcases hclose fd hfd with ⟨hnil, _⟩ | hpipe
  · exact absurd hnil (by simp)
  · exact hpipe

/-- Without any stage the only thing `executePipedCommands` does is `close(0)`. -/
theorem executePipedCommands_nil (w : World) (s : State) :
    executePipedCommands w [] s = sysClose 0 s := rfl

end MyShell
